import Mathlib

/-!
Verification of the agentrc transpiler core (IR builder, adapter registry,
per-platform adapters, hook compiler, budget allocator) against its
natural-language specification.  The Lean definitions below are a shallow
embedding of the TypeScript sources: `src/core/ir.ts`, `src/core/config.ts`,
`src/adapters/*.ts`.  JavaScript strings are modelled as Lean `String`
(code-unit counts agree on the ASCII data handled here), `undefined`-able
fields as `Option`, records as structures, and JS array iteration as list
recursion.  `Array.prototype.sort` with the priority-rank comparator is a
stable sort by specification (ECMAScript 2019), so it is embedded as
`List.insertionSort`, which is stable for the same comparator.
-/

set_option maxRecDepth 2000

namespace Agentrc

/-! ## Core IR types (src/core/ir.ts) -/

/-- RuleScope from ir.ts: 'always' | 'glob' | 'description' | 'manual'. -/
inductive RuleScope where
  | always
  | glob
  | description
  | manual
deriving DecidableEq, Repr

/-- Priority from ir.ts: 'critical' | 'high' | 'normal' | 'low'. -/
inductive Priority where
  | critical
  | high
  | normal
  | low
deriving DecidableEq, Repr

/-- String form of a priority, as interpolated into JS template strings. -/
def priorityStr : Priority → String
  | .critical => "critical"
  | .high => "high"
  | .normal => "normal"
  | .low => "low"

/-- Rule record from ir.ts.  Optional fields are `Option`. -/
structure Rule where
  name : String
  scope : RuleScope
  content : String
  globs : Option (List String) := none
  description : Option String := none
  alwaysApply : Option Bool := none
  manual : Option Bool := none
  priority : Priority
  sourcePath : String
deriving DecidableEq, Repr

/-- HookEvent: 'post-edit' | 'pre-commit' | 'post-create'. -/
inductive HookEvent where
  | postEdit
  | preCommit
  | postCreate
deriving DecidableEq, Repr

/-- Hook record from ir.ts.  The TS field `match` is a Lean keyword, so it is
named `matchGlob` here. -/
structure Hook where
  event : HookEvent
  matchGlob : Option String := none
  run : String
  description : String
deriving DecidableEq, Repr

/-- AgentCommand record from ir.ts. -/
structure AgentCommand where
  name : String
  description : String
  content : String
  aliases : Option (List String) := none
  sourcePath : String
deriving DecidableEq, Repr

/-- Skill record from ir.ts.  `files` is a `Record<string, string>` whose
iteration order (JS object insertion order) is modelled as an association
list. -/
structure Skill where
  name : String
  description : String
  content : String
  files : List (String × String)
  sourcePath : String
deriving DecidableEq, Repr

/-- Agent record from ir.ts. -/
structure Agent where
  name : String
  description : String
  content : String
  model : Option String := none
  tools : Option (List String) := none
  sourcePath : String
deriving DecidableEq, Repr

/-- IR record from ir.ts. -/
structure IR where
  rules : List Rule
  hooks : List Hook
  commands : List AgentCommand
  skills : List Skill
  agents : List Agent
  targets : List String
deriving DecidableEq, Repr

/-- OutputFile from adapter.ts. -/
structure OutputFile where
  path : String
  content : String
deriving DecidableEq, Repr

/-- AdapterResult from adapter.ts. -/
structure AdapterResult where
  files : List OutputFile
  warnings : List String
  nativeFeatures : List String
  degradedFeatures : List String
deriving DecidableEq, Repr

/-- Adapter from adapter.ts: a name and a pure generate function. -/
structure Adapter where
  name : String
  generate : IR → AdapterResult

/-! ## JavaScript string-and-truthiness helpers -/

/-- Truthiness of an optional JS string: `undefined` and `''` are falsy. -/
def jsTruthyStr : Option String → Bool
  | none => false
  | some s => !(s == "")

/-- Truthiness of a plain JS string: `''` is falsy. -/
def jsTruthy (s : String) : Bool := !(s == "")

/-- Model of `String.prototype.trim`: strip whitespace from both ends. -/
def jsTrim (s : String) : String :=
  String.mk (((s.toList.dropWhile Char.isWhitespace).reverse.dropWhile
    Char.isWhitespace).reverse)

/-- Model of `Array.prototype.join(sep)`. -/
def jsJoin (sep : String) (xs : List String) : String :=
  String.intercalate sep xs

/-! ## determineScope and sortByPriority (src/core/ir.ts) -/

/-- Shape of the frontmatter record consumed by `determineScope`. -/
structure RuleFrontmatter where
  alwaysApply : Option Bool := none
  manual : Option Bool := none
  globs : Option (List String) := none
  description : Option String := none
deriving DecidableEq, Repr

/-- Truthiness of `frontmatter.globs && frontmatter.globs.length > 0`. -/
def hasGlobs (fm : RuleFrontmatter) : Bool :=
  match fm.globs with
  | none => false
  | some gs => decide (0 < gs.length)

/-- determineScope from ir.ts: explicit overrides first (alwaysApply kept for
backwards compat), then scoping fields, then the explicit-false backwards
compat case, finally the always-on default. -/
def determineScope (fm : RuleFrontmatter) : RuleScope :=
  if fm.alwaysApply = some true then .always
  else if fm.manual = some true then .manual
  else if hasGlobs fm then .glob
  else if jsTruthyStr fm.description then .description
  else if fm.alwaysApply = some false then .manual
  else .always

/-- Numeric rank used by the priority comparator in ir.ts and the adapters. -/
def priorityOrder : Priority → Nat
  | .critical => 0
  | .high => 1
  | .normal => 2
  | .low => 3

/-- Comparator relation of `sort((a, b) => order[a.priority] - order[b.priority])`. -/
def ruleLE (a b : Rule) : Prop :=
  priorityOrder a.priority ≤ priorityOrder b.priority

instance : DecidableRel ruleLE := fun a b =>
  inferInstanceAs (Decidable (priorityOrder a.priority ≤ priorityOrder b.priority))

instance : IsTotal Rule ruleLE := ⟨fun _ _ => Nat.le_total _ _⟩

instance : IsTrans Rule ruleLE := ⟨fun _ _ _ => Nat.le_trans⟩

/-- sortByPriority from ir.ts: `[...rules].sort((a, b) => order[a.priority] -
order[b.priority])`.  JS `Array.prototype.sort` is a stable sort, embedded as
the stable `List.insertionSort` on the same comparator. -/
def sortByPriority (rules : List Rule) : List Rule :=
  List.insertionSort ruleLE rules

/-! ## Shared renderers (src/adapters/shared.ts) -/

/-- String form of a hook event, as interpolated into JS template strings. -/
def hookEventStr : HookEvent → String
  | .postEdit => "post-edit"
  | .preCommit => "pre-commit"
  | .postCreate => "post-create"

/-- renderGlobRule from shared.ts: heading plus file-match prefix. -/
def renderGlobRule (rule : Rule) : String :=
  let globList := jsJoin ", " (rule.globs.getD [])
  "### " ++ rule.name ++ "\n\nWhen working on files matching `" ++ globList ++
    "`:\n\n" ++ rule.content

/-- renderDescriptionRule from shared.ts: heading annotated with the
description when it is truthy. -/
def renderDescriptionRule (rule : Rule) : String :=
  let desc := if jsTruthyStr rule.description
    then " (" ++ rule.description.getD "" ++ ")" else ""
  "### " ++ rule.name ++ desc ++ "\n\n" ++ rule.content

/-- Body lines a single hook contributes to a degraded hooks rendering:
event heading with optional match info, description or a `Run:` fallback,
and the raw command when both description and run are truthy. -/
def hookLines (hook : Hook) : List String :=
  let matchInfo := if jsTruthyStr hook.matchGlob
    then " on files matching `" ++ hook.matchGlob.getD "" ++ "`" else ""
  ["### " ++ hookEventStr hook.event ++ matchInfo, ""] ++
  [if jsTruthy hook.description then hook.description
   else "Run: `" ++ hook.run ++ "`"] ++
  (if jsTruthy hook.description ∧ jsTruthy hook.run
   then ["", "Command: `" ++ hook.run ++ "`"] else []) ++
  [""]

/-- renderHooksSection from shared.ts. -/
def renderHooksSection (hooks : List Hook) : String :=
  if hooks.length = 0 then "" else
  jsJoin "\n" (["## Hooks", ""] ++ hooks.flatMap hookLines)

/-- Body lines one skill contributes to a degraded skills rendering. -/
def skillLines (skill : Skill) : List String :=
  ["### " ++ skill.name, ""] ++
  (if jsTruthy skill.description then [skill.description, ""] else []) ++
  [skill.content, ""]

/-- renderSkillsSection from shared.ts. -/
def renderSkillsSection (skills : List Skill) : String :=
  if skills.length = 0 then "" else
  jsJoin "\n" (["## Skills", ""] ++ skills.flatMap skillLines)

/-- pushSkillFiles from shared.ts, returning the files it appends:
SKILL.md plus the supporting files of the skill under the given prefix. -/
def skillOutputFiles (skill : Skill) (pre : String) : List OutputFile :=
  ⟨pre ++ "/skills/" ++ skill.name ++ "/SKILL.md", jsTrim skill.content ++ "\n"⟩ ::
  skill.files.map (fun fc => ⟨pre ++ "/skills/" ++ skill.name ++ "/" ++ fc.1, fc.2⟩)

/-- Modelled from the spec: `inlineSkillContent` (adapters/shared.ts) is
called by the windsurf and cline adapters but its definition is absent from
the snapshot.  Per the spec, a degraded skill renders its body with its
supporting files inlined rather than emitted as sibling files. -/
def inlineSkillContent (skill : Skill) : String :=
  jsTrim skill.content ++
    String.join (skill.files.map (fun fc => "\n\n#### " ++ fc.1 ++ "\n\n" ++ jsTrim fc.2))

/-! ## Glob to regex compilation (src/adapters/claude.ts, globToRegex)

Each `String.prototype.replace(regexp, ...)` pass of the source is embedded
as one recursive pass over the character list.  The passes run in source
order: escape dots, rewrite brace alternation groups, rewrite `**`, rewrite
lone `*` (with the source's lookbehind/lookahead conditions), rewrite `?`. -/

/-- Pass 1, `replace(/\./g, '\\.')`: escape every literal dot. -/
def escDots : List Char → List Char
  | [] => []
  | c :: t => if c = '.' then '\\' :: '.' :: escDots t else c :: escDots t

/-- Splits a character list at its first `\x7d` (closing brace), returning
the characters before it and the characters after it. -/
def splitAtClose : List Char → Option (List Char × List Char)
  | [] => none
  | c :: t =>
    if c = '}' then some ([], t)
    else match splitAtClose t with
      | none => none
      | some (g, r) => some (c :: g, r)

/-- Replacement-side comma rewrite of the brace pass: `group.replace(/,/g, '|')`. -/
def commasToPipes (g : List Char) : List Char :=
  g.map (fun c => if c = ',' then '|' else c)

/-- Scanner of the brace pass, structurally recursive on a fuel argument so
that it evaluates by reduction.  One unit of fuel is spent per emitted
chunk, and every chunk consumes at least one input character, so fuel equal
to the input length (as supplied by `bracesPass`) never runs out; the
zero-fuel branch is unreachable. -/
def bracesGo : Nat → List Char → List Char
  | 0, s => s
  | fuel + 1, s =>
    match s with
    | [] => []
    | c :: t =>
      if c = '{' then
        match splitAtClose t with
        | some (g, r) =>
          if g.isEmpty then '{' :: bracesGo fuel t
          else '(' :: (commasToPipes g ++ ')' :: bracesGo fuel r)
        | none => '{' :: bracesGo fuel t
      else c :: bracesGo fuel t

/-- Pass 2, `replace(/\x7b([^\x7d]+)\x7d/g, ...)`: each brace group with a
nonempty body (the body cannot contain a closing brace) becomes a
parenthesised alternation with commas turned into pipes.  A `\x7b` with no
matching `\x7d`, or an empty group, is copied unchanged, as the JS regex
fails to match there. -/
def bracesPass (s : List Char) : List Char :=
  bracesGo s.length s

/-- Pass 3, `replace(/\*\*/g, '.*')`: each pair of consecutive stars becomes
`.*`, scanning left to right. -/
def starsPass : List Char → List Char
  | [] => []
  | [c] => [c]
  | c1 :: c2 :: t =>
    if c1 = '*' ∧ c2 = '*' then '.' :: '*' :: starsPass t
    else c1 :: starsPass (c2 :: t)

/-- Pass 4, `replace(/(?<!\.)(\*)(?!\*)/g, '[^\/]*')`: a star is rewritten to
`[^/]*` when the character before it (in the pass-3 output) is not a dot and
the character after it is not a star.  `prev` carries the previous input
character for the lookbehind. -/
def lonePass (prev : Option Char) : List Char → List Char
  | [] => []
  | c :: t =>
    if c = '*' then
      if prev ≠ some '.' ∧ t.head? ≠ some '*'
      then '[' :: '^' :: '/' :: ']' :: '*' :: lonePass (some '*') t
      else '*' :: lonePass (some '*') t
    else c :: lonePass (some c) t

/-- Pass 5, `replace(/\?/g, '.')`. -/
def qPass (s : List Char) : List Char :=
  s.map (fun c => if c = '?' then '.' else c)

/-- globToRegex from claude.ts: the five replacement passes in source order. -/
def globToRegex (glob : String) : String :=
  String.mk (qPass (lonePass none (starsPass (bracesPass (escDots glob.toList)))))

/-! ## Hook compiler (src/adapters/claude.ts) -/

/-- Matcher record returned by `mapHookEvent`. -/
structure HookTrigger where
  event : String
  matcher : String
deriving DecidableEq, Repr

/-- mapHookEvent from claude.ts: the total, fixed event-to-trigger table. -/
def mapHookEvent : HookEvent → HookTrigger
  | .postEdit => ⟨"PostToolUse", "Edit|Write|MultiEdit"⟩
  | .postCreate => ⟨"PostToolUse", "Write"⟩
  | .preCommit => ⟨"Notification", "Stop"⟩

/-- Character list of the `\x7bfile\x7d` placeholder token. -/
def fileTok : List Char := ['{', 'f', 'i', 'l', 'e', '}']

/-- Model of `run.replace(/\{file\}/g, '$1')`: every occurrence of the
placeholder token, scanning left to right without overlap, becomes `$1`. -/
def replaceFile : List Char → List Char
  | '{' :: 'f' :: 'i' :: 'l' :: 'e' :: '}' :: t => '$' :: '1' :: replaceFile t
  | c :: t => c :: replaceFile t
  | [] => []

/-- String-level wrapper of `replaceFile`. -/
def replaceFileStr (s : String) : String := String.mk (replaceFile s.toList)

/-- Truthiness of `run.includes('\x7bfile\x7d')`. -/
def hasFileTok (s : String) : Bool := decide (fileTok <:+: s.toList)

/-- Truthiness of `hook.match !== undefined && hook.match !== ''`. -/
def hookMatchNonempty (hook : Hook) : Bool :=
  match hook.matchGlob with
  | none => false
  | some m => !(m == "")

/-- Storage-prefix resolution from buildHookCommand: a `hooks/` run command
is rewritten under `.agentrc/`.  `run.startsWith('hooks/')` is modelled as a
character-level prefix test. -/
def resolveRun (run : String) : String :=
  if ("hooks/").toList.isPrefixOf run.toList then ".agentrc/" ++ run else run

/-- Wrapper pipeline of buildHookCommand: extract the edited file path from
the event payload with jq and bind it to the positional parameter `$1` of an
`sh -c` invocation running the inner command. -/
def jqPipeline (inner : String) : String :=
  "jq -r \x27.tool_input.file_path\x27 | xargs -I \x7b\x7d sh -c \x27" ++
    inner ++ "\x27 _ \x7b\x7d"

/-- Guard expression spliced before a command when a match glob is present. -/
def grepGuard (m : String) (cmd : String) : String :=
  "echo \"$1\" | grep -qE \"" ++ globToRegex m ++ "\" && " ++ cmd

/-- buildHookCommand from claude.ts: hooks/ prefix resolution, `\x7bfile\x7d`
placeholder substitution via the jq pipeline, and glob match filtering. -/
def buildHookCommand (hook : Hook) : String :=
  let run := resolveRun hook.run
  if hasFileTok run then
    let innerCmd := replaceFileStr run
    let innerCmd := if hookMatchNonempty hook
      then grepGuard (hook.matchGlob.getD "") innerCmd else innerCmd
    jqPipeline innerCmd
  else if hookMatchNonempty hook then
    jqPipeline (grepGuard (hook.matchGlob.getD "") run)
  else run

/-! ## Claude adapter (src/adapters/claude.ts) -/

/-- Lower-case hex digit. -/
def hexDigit (n : Nat) : Char :=
  if n < 10 then Char.ofNat (48 + n) else Char.ofNat (87 + n)

/-- Escape of one character inside a JSON string literal, as produced by
`JSON.stringify`. -/
def jsonEscapeChar (c : Char) : List Char :=
  if c = '"' then ['\\', '"']
  else if c = '\\' then ['\\', '\\']
  else if c = Char.ofNat 8 then ['\\', 'b']
  else if c = Char.ofNat 12 then ['\\', 'f']
  else if c = '\n' then ['\\', 'n']
  else if c = Char.ofNat 13 then ['\\', 'r']
  else if c = Char.ofNat 9 then ['\\', 't']
  else if c.toNat < 32 then
    ['\\', 'u', '0', '0', hexDigit (c.toNat / 16), hexDigit (c.toNat % 16)]
  else [c]

/-- JSON string literal for `s`, as produced by `JSON.stringify`. -/
def jsonStr (s : String) : String :=
  "\"" ++ String.mk (s.toList.flatMap jsonEscapeChar) ++ "\""

/-- Rendering of one `\x7b matcher, hooks: [\x7b type, command \x7d] \x7d`
array entry of `.claude/settings.json`, at the indentation produced by
`JSON.stringify(settings, null, 2)`. -/
def settingsEntry (e : String × String) : String :=
  "      \x7b\n        \"matcher\": " ++ jsonStr e.1 ++
  ",\n        \"hooks\": [\n          \x7b\n            \"type\": \"command\",\n            \"command\": " ++
  jsonStr e.2 ++ "\n          \x7d\n        ]\n      \x7d"

/-- Rendering of one event key of the `hooks` object of settings.json. -/
def settingsEventBlock (b : String × List (String × String)) : String :=
  "    " ++ jsonStr b.1 ++ ": [\n" ++
    jsJoin ",\n" (b.2.map settingsEntry) ++ "\n    ]"

/-- Model of `JSON.stringify(\x7b hooks: hooksConfig \x7d, null, 2)` for the
hooks settings object built by the claude adapter. -/
def settingsJson (settingsHooks : List (String × List (String × String))) : String :=
  if settingsHooks.length = 0 then "\x7b\n  \"hooks\": \x7b\x7d\n\x7d"
  else
    "\x7b\n  \"hooks\": \x7b\n" ++
      jsJoin ",\n" (settingsHooks.map settingsEventBlock) ++ "\n  \x7d\n\x7d"

/-- Insertion into the `settingsHooks` record: JS object key insertion order,
appending to an existing event key's array. -/
def addHookEntry (l : List (String × List (String × String))) (ev : String)
    (e : String × String) : List (String × List (String × String)) :=
  match l with
  | [] => [(ev, [e])]
  | (k, es) :: t =>
    if k = ev then (k, es ++ [e]) :: t else (k, es) :: addHookEntry t ev e

/-- Markdown section of one rule in CLAUDE.md, by scope. -/
def claudeRuleSection (r : Rule) : String :=
  match r.scope with
  | .glob =>
    "### " ++ r.name ++ "\n\nWhen working on files matching `" ++
      jsJoin ", " (r.globs.getD []) ++ "`:\n\n" ++ r.content
  | .description =>
    "### " ++ r.name ++
      (if jsTruthyStr r.description then " (" ++ r.description.getD "" ++ ")" else "") ++
      "\n\n" ++ r.content
  | _ => "### " ++ r.name ++ "\n\n" ++ r.content

/-- generate of the claude adapter: CLAUDE.md sections (always, manual, glob,
description in that order), native hooks in .claude/settings.json, native
commands and skills as files. -/
def claudeGenerate (ir : IR) : AdapterResult :=
  let sorted := sortByPriority ir.rules
  let alwaysRules := sorted.filter (fun r => r.scope == .always)
  let manualRules := sorted.filter (fun r => r.scope == .manual)
  let globRules := sorted.filter (fun r => r.scope == .glob)
  let descRules := sorted.filter (fun r => r.scope == .description)
  let mdSections := (alwaysRules ++ manualRules ++ globRules ++ descRules).map claudeRuleSection
  let degraded :=
    (if 0 < globRules.length
     then ["scoped-rules (folded into CLAUDE.md with file-match annotations)"] else []) ++
    (if 0 < descRules.length
     then ["description-triggered rules (folded into CLAUDE.md)"] else [])
  let claudeMdFiles : List OutputFile :=
    if 0 < mdSections.length
    then [⟨"CLAUDE.md", jsTrim (jsJoin "\n\n" mdSections) ++ "\n"⟩] else []
  let settingsHooks := ir.hooks.foldl
    (fun acc h =>
      let t := mapHookEvent h.event
      addHookEntry acc t.event (t.matcher, buildHookCommand h)) []
  let native := ["instructions"] ++
    (if 0 < ir.hooks.length then ["hooks"] else []) ++
    (if 0 < ir.commands.length then ["commands"] else []) ++
    (if 0 < ir.skills.length then ["skills"] else [])
  let settingsFiles : List OutputFile :=
    if 0 < settingsHooks.length
    then [⟨".claude/settings.json", settingsJson settingsHooks ++ "\n"⟩] else []
  let commandFiles := ir.commands.map
    (fun c => (⟨".claude/commands/" ++ c.name ++ ".md", jsTrim c.content ++ "\n"⟩ : OutputFile))
  let skillFiles := ir.skills.flatMap (fun s =>
    (⟨".claude/skills/" ++ s.name ++ "/SKILL.md", jsTrim s.content ++ "\n"⟩ : OutputFile) ::
    s.files.map (fun fc => ⟨".claude/skills/" ++ s.name ++ "/" ++ fc.1, fc.2⟩))
  { files := claudeMdFiles ++ settingsFiles ++ commandFiles ++ skillFiles
    warnings := []
    nativeFeatures := native
    degradedFeatures := degraded }

/-- Claude Code adapter value. -/
def claudeAdapter : Adapter := ⟨"claude", claudeGenerate⟩

/-! ## Windsurf adapter (src/adapters/windsurf.ts) -/

/-- Per-file character limit of the windsurf adapter. -/
def RULE_CHAR_LIMIT : Nat := 6000

/-- Total character limit of the windsurf adapter. -/
def TOTAL_CHAR_LIMIT : Nat := 12000

/-- Truthiness of `rule.globs && rule.globs.length > 0`. -/
def globsNonempty : Option (List String) → Bool
  | none => false
  | some gs => decide (0 < gs.length)

/-- Full output block of one rule in the windsurf adapter: Windsurf
frontmatter (glob trigger, model trigger, or always_on) plus the trimmed
rule body. -/
def windsurfRuleContent (rule : Rule) : String :=
  let fm :=
    if rule.scope == .glob && globsNonempty rule.globs then
      "---\ntrigger: glob\nglobs:\n" ++
        jsJoin "\n" ((rule.globs.getD []).map (fun g => "  - \"" ++ g ++ "\"")) ++
        "\n---"
    else if rule.scope == .description && jsTruthyStr rule.description then
      "---\ntrigger: model\ndescription: \"" ++ rule.description.getD "" ++ "\"\n---"
    else
      "---\ntrigger: always_on\n---"
  fm ++ "\n\n" ++ jsTrim rule.content ++ "\n"

/-- Warning text for a rule block exceeding the per-file limit. -/
def oversizeWarning (name : String) (charCount : Nat) : String :=
  "Rule \"" ++ name ++ "\" is " ++ toString charCount ++
    " chars, exceeding Windsurf\x27s " ++ toString RULE_CHAR_LIMIT ++
    "-char per-file limit. It will be truncated by Windsurf."

/-- Warning text for a rule dropped by the total-limit check. -/
def dropWarning (name : String) (p : Priority) (total : Nat) : String :=
  "Dropping rule \"" ++ name ++ "\" (priority: " ++ priorityStr p ++
    "): would exceed Windsurf\x27s " ++ toString TOTAL_CHAR_LIMIT ++
    "-char total limit (current: " ++ toString total ++ " chars)."

/-- Warning text for an overflowing conventions file. -/
def convOverflowWarning : String :=
  "Conventions file (skills) would exceed Windsurf\x27s " ++
    toString TOTAL_CHAR_LIMIT ++
    "-char total limit. Some degraded content may be truncated."

/-- Rule loop of the windsurf adapter: renders each block, warns on per-file
oversize, drops (with a warning) any block that would push the running total
over the total limit, and otherwise emits the file and advances the total.
Returns the emitted files, the warnings, and the final running total. -/
def windsurfScan (total : Nat) : List Rule → List OutputFile × List String × Nat
  | [] => ([], [], total)
  | r :: rs =>
    let content := windsurfRuleContent r
    let charCount := content.length
    let overs := if RULE_CHAR_LIMIT < charCount
      then [oversizeWarning r.name charCount] else []
    if TOTAL_CHAR_LIMIT < total + charCount then
      let rest := windsurfScan total rs
      (rest.1, overs ++ dropWarning r.name r.priority total :: rest.2.1, rest.2.2)
    else
      let rest := windsurfScan (total + charCount) rs
      (⟨".windsurf/rules/" ++ r.name ++ ".md", content⟩ :: rest.1,
        overs ++ rest.2.1, rest.2.2)

/-- Conventions sections built for degraded skills by the windsurf adapter. -/
def windsurfConventionSections (skills : List Skill) : List String :=
  if 0 < skills.length then
    "## Skills" :: "" :: skills.flatMap (fun skill =>
      ["### " ++ skill.name, ""] ++
      (if jsTruthy skill.description then [skill.description, ""] else []) ++
      [inlineSkillContent skill, ""])
  else []

/-- generate of the windsurf adapter. -/
def windsurfGenerate (ir : IR) : AdapterResult :=
  let scanned := windsurfScan 0 ir.rules
  let ruleFiles := scanned.1
  let ruleWarnings := scanned.2.1
  let totalChars := scanned.2.2
  let descRules := ir.rules.filter (fun r => r.scope == .description)
  let native := ["instructions", "scoped-rules"] ++
    (if 0 < descRules.length then ["description-triggered-rules"] else [])
  let degraded := if 0 < ir.skills.length
    then ["skills (folded into conventions file)"] else []
  let conventionSections := windsurfConventionSections ir.skills
  let convPart : List OutputFile × List String :=
    if 0 < conventionSections.length then
      let convContent := "---\ntrigger: always_on\n---\n\n" ++
        jsTrim (jsJoin "\n" conventionSections) ++ "\n"
      let convW := if TOTAL_CHAR_LIMIT < totalChars + convContent.length
        then [convOverflowWarning] else []
      ([⟨".windsurf/rules/agentrc-conventions.md", convContent⟩], convW)
    else ([], [])
  { files := ruleFiles ++ convPart.1
    warnings := ruleWarnings ++ convPart.2
    nativeFeatures := native
    degradedFeatures := degraded }

/-- Windsurf adapter value. -/
def windsurfAdapter : Adapter := ⟨"windsurf", windsurfGenerate⟩

/-! ## Cursor adapter (src/adapters/cursor.ts) -/

/-- Cursor frontmatter for one rule, by scope. -/
def cursorRuleFm (rule : Rule) : String :=
  match rule.scope with
  | .always => "---\nalwaysApply: true\n---"
  | .glob =>
    "---\nglobs: \"" ++ jsJoin "," (rule.globs.getD []) ++ "\"\nalwaysApply: false\n---"
  | .description =>
    "---\ndescription: \"" ++ rule.description.getD rule.name ++ "\"\nalwaysApply: false\n---"
  | .manual => "---\nalwaysApply: false\n---"

/-- Hook block lines of the degraded cursor hooks rule (`##` headings). -/
def cursorHookLines (hook : Hook) : List String :=
  let matchInfo := if jsTruthyStr hook.matchGlob
    then " on files matching `" ++ hook.matchGlob.getD "" ++ "`" else ""
  ["## " ++ hookEventStr hook.event ++ matchInfo, ""] ++
  [if jsTruthy hook.description then hook.description
   else "Run: `" ++ hook.run ++ "`"] ++
  (if jsTruthy hook.description ∧ jsTruthy hook.run
   then ["", "Command: `" ++ hook.run ++ "`"] else []) ++
  [""]

/-- Truthiness of `cmd.aliases?.length`. -/
def aliasesNonempty : Option (List String) → Bool
  | none => false
  | some xs => decide (0 < xs.length)

/-- Command block lines of a degraded commands rendering (`##` headings). -/
def cursorCmdLines (cmd : AgentCommand) : List String :=
  let aliases := if aliasesNonempty cmd.aliases
    then " (aliases: " ++ jsJoin ", " (cmd.aliases.getD []) ++ ")" else ""
  ["## " ++ cmd.name ++ aliases, ""] ++
  (if jsTruthy cmd.description then [cmd.description, ""] else []) ++
  [cmd.content, ""]

/-- generate of the cursor adapter: one RULE.md per rule, degraded hooks and
commands rules, native skill files. -/
def cursorGenerate (ir : IR) : AdapterResult :=
  let sorted := sortByPriority ir.rules
  let ruleFiles := sorted.map (fun rule =>
    (⟨".cursor/rules/" ++ rule.name ++ "/RULE.md",
      cursorRuleFm rule ++ "\n\n" ++ jsTrim rule.content ++ "\n"⟩ : OutputFile))
  let hooksDegraded := 0 < ir.hooks.length
  let hookFiles : List OutputFile :=
    if hooksDegraded then
      let hookLs := ["# Hooks", "", "Follow these behavioral rules for hooks:", ""] ++
        ir.hooks.flatMap cursorHookLines
      [⟨".cursor/rules/agentrc-hooks/RULE.md",
        "---\nalwaysApply: true\n---\n\n" ++ jsTrim (jsJoin "\n" hookLs) ++ "\n"⟩]
    else []
  let cmdsDegraded := 0 < ir.commands.length
  let cmdFiles : List OutputFile :=
    if cmdsDegraded then
      let cmdLs := ["# Available Commands and Workflows", ""] ++
        ir.commands.flatMap cursorCmdLines
      [⟨".cursor/rules/agentrc-commands/RULE.md",
        "---\ndescription: \"Available commands and workflows\"\nalwaysApply: false\n---\n\n" ++
          jsTrim (jsJoin "\n" cmdLs) ++ "\n"⟩]
    else []
  let skillsNative := 0 < ir.skills.length
  let skillFiles := ir.skills.flatMap (fun s =>
    (⟨".cursor/skills/" ++ s.name ++ "/SKILL.md", jsTrim s.content ++ "\n"⟩ : OutputFile) ::
    s.files.map (fun fc => ⟨".cursor/skills/" ++ s.name ++ "/" ++ fc.1, fc.2⟩))
  { files := ruleFiles ++ hookFiles ++ cmdFiles ++ skillFiles
    warnings := []
    nativeFeatures := ["instructions", "scoped-rules"] ++
      (if skillsNative then ["skills"] else [])
    degradedFeatures :=
      (if hooksDegraded then ["hooks (folded into behavioral instructions rule)"] else []) ++
      (if cmdsDegraded then ["commands (folded into description-triggered rule)"] else []) }

/-- Cursor adapter value. -/
def cursorAdapter : Adapter := ⟨"cursor", cursorGenerate⟩

/-! ## Copilot adapter (src/adapters/copilot.ts) -/

/-- generate of the copilot adapter: always/manual/description rules plus
degraded hooks, commands and skills in copilot-instructions.md, glob rules in
per-rule .instructions.md files. -/
def copilotGenerate (ir : IR) : AdapterResult :=
  let sorted := sortByPriority ir.rules
  let alwaysRules := sorted.filter (fun r => r.scope == .always || r.scope == .manual)
  let alwaysSecs := alwaysRules.map (fun r => "### " ++ r.name ++ "\n\n" ++ r.content)
  let globRules := sorted.filter (fun r => r.scope == .glob)
  let globFiles := globRules.map (fun rule =>
    (⟨".github/instructions/" ++ rule.name ++ ".instructions.md",
      "---\napplyTo: \"" ++ jsJoin "," (rule.globs.getD []) ++ "\"\n---\n\n" ++
        jsTrim rule.content ++ "\n"⟩ : OutputFile))
  let descRules := sorted.filter (fun r => r.scope == .description)
  let descSecs := descRules.map (fun r =>
    "### " ++ r.name ++
      (if jsTruthyStr r.description then " (" ++ r.description.getD "" ++ ")" else "") ++
      "\n\n" ++ r.content)
  let hookSecs := if 0 < ir.hooks.length
    then [jsJoin "\n" (["## Hooks", ""] ++ ir.hooks.flatMap hookLines)] else []
  let cmdSecs := if 0 < ir.commands.length
    then [jsJoin "\n" (["## Workflows", ""] ++ ir.commands.flatMap (fun cmd =>
      let aliases := if aliasesNonempty cmd.aliases
        then " (aliases: " ++ jsJoin ", " (cmd.aliases.getD []) ++ ")" else ""
      ["### " ++ cmd.name ++ aliases, ""] ++
      (if jsTruthy cmd.description then [cmd.description, ""] else []) ++
      [cmd.content, ""]))]
    else []
  let skillSecs := if 0 < ir.skills.length
    then [jsJoin "\n" (["## Skills", ""] ++ ir.skills.flatMap skillLines)] else []
  let mainSections := alwaysSecs ++ descSecs ++ hookSecs ++ cmdSecs ++ skillSecs
  let degraded :=
    (if 0 < descRules.length
     then ["description-triggered rules (folded into instructions)"] else []) ++
    (if 0 < ir.hooks.length then ["hooks (folded into behavioral instructions)"] else []) ++
    (if 0 < ir.commands.length then ["commands (folded into workflows section)"] else []) ++
    (if 0 < ir.skills.length then ["skills (folded into skills section)"] else [])
  { files := globFiles ++
      [⟨".github/copilot-instructions.md", jsTrim (jsJoin "\n\n" mainSections) ++ "\n"⟩]
    warnings := []
    nativeFeatures := ["instructions", "scoped-rules"]
    degradedFeatures := degraded }

/-- Copilot adapter value. -/
def copilotAdapter : Adapter := ⟨"copilot", copilotGenerate⟩

/-! ## Cline adapter (src/adapters/cline.ts) -/

/-- Model of `String(index).padStart(2, '0')`. -/
def padStart2 (n : Nat) : String :=
  let s := toString n
  if s.length < 2 then String.mk (List.replicate (2 - s.length) '0') ++ s else s

/-- Content of one cline rule file: paths frontmatter for glob-scoped rules,
bare trimmed body otherwise. -/
def clineRuleContent (rule : Rule) : String :=
  if rule.scope == .glob && globsNonempty rule.globs then
    "---\npaths:\n" ++
      jsJoin "\n" ((rule.globs.getD []).map (fun g => "  - \"" ++ g ++ "\"")) ++
      "\n---\n\n" ++ jsTrim rule.content ++ "\n"
  else jsTrim rule.content ++ "\n"

/-- generate of the cline adapter: numbered rule files starting at 01, with
00-agentrc-conventions.md holding degraded skills. -/
def clineGenerate (ir : IR) : AdapterResult :=
  let ruleFiles := ir.rules.enum.map (fun ir0 =>
    (⟨".clinerules/" ++ padStart2 (ir0.1 + 1) ++ "-" ++ ir0.2.name ++ ".md",
      clineRuleContent ir0.2⟩ : OutputFile))
  let skillsDegraded := 0 < ir.skills.length
  let conventionSections : List String :=
    if skillsDegraded then
      "## Skills" :: "" :: ir.skills.flatMap (fun skill =>
        ["### " ++ skill.name, ""] ++
        (if jsTruthy skill.description then [skill.description, ""] else []) ++
        [inlineSkillContent skill, ""])
    else []
  let convFiles : List OutputFile :=
    if 0 < conventionSections.length then
      [⟨".clinerules/00-agentrc-conventions.md",
        jsTrim (jsJoin "\n" conventionSections) ++ "\n"⟩]
    else []
  { files := ruleFiles ++ convFiles
    warnings := []
    nativeFeatures := ["instructions", "scoped-rules"]
    degradedFeatures := if skillsDegraded
      then ["skills (folded into conventions file)"] else [] }

/-- Cline adapter value. -/
def clineAdapter : Adapter := ⟨"cline", clineGenerate⟩

/-! ## Gemini adapter (src/adapters/gemini.ts) -/

/-- generate of the gemini adapter: rules in GEMINI.md, native skills under
.gemini/skills/. -/
def geminiGenerate (ir : IR) : AdapterResult :=
  let alwaysRules := ir.rules.filter (fun r => r.scope == .always || r.scope == .manual)
  let alwaysSecs := alwaysRules.map (fun r => "### " ++ r.name ++ "\n\n" ++ r.content)
  let globRules := ir.rules.filter (fun r => r.scope == .glob)
  let globSecs := globRules.map renderGlobRule
  let descRules := ir.rules.filter (fun r => r.scope == .description)
  let descSecs := descRules.map renderDescriptionRule
  let sections := alwaysSecs ++ globSecs ++ descSecs
  let skillsNative := 0 < ir.skills.length
  let skillFiles := ir.skills.flatMap (fun s => skillOutputFiles s ".gemini")
  { files := skillFiles ++ [⟨"GEMINI.md", jsTrim (jsJoin "\n\n" sections) ++ "\n"⟩]
    warnings := []
    nativeFeatures := ["instructions"] ++ (if skillsNative then ["skills"] else [])
    degradedFeatures :=
      (if 0 < globRules.length
       then ["scoped-rules (folded into instructions with file-match prefix)"] else []) ++
      (if 0 < descRules.length
       then ["description-triggered rules (folded into instructions)"] else []) }

/-- Gemini adapter value. -/
def geminiAdapter : Adapter := ⟨"gemini", geminiGenerate⟩

/-! ## Codex adapter (src/adapters/codex.ts) -/

/-- generate of the codex adapter: rules and degraded hooks in AGENTS.md,
native skills under .agents/skills/. -/
def codexGenerate (ir : IR) : AdapterResult :=
  let alwaysRules := ir.rules.filter (fun r => r.scope == .always || r.scope == .manual)
  let alwaysSecs := alwaysRules.map (fun r => "### " ++ r.name ++ "\n\n" ++ r.content)
  let globRules := ir.rules.filter (fun r => r.scope == .glob)
  let globSecs := globRules.map renderGlobRule
  let descRules := ir.rules.filter (fun r => r.scope == .description)
  let descSecs := descRules.map renderDescriptionRule
  let hookSecs := if 0 < ir.hooks.length then [renderHooksSection ir.hooks] else []
  let sections := alwaysSecs ++ globSecs ++ descSecs ++ hookSecs
  let skillFiles := ir.skills.flatMap (fun s =>
    (⟨".agents/skills/" ++ s.name ++ "/SKILL.md", jsTrim s.content ++ "\n"⟩ : OutputFile) ::
    s.files.map (fun fc => ⟨".agents/skills/" ++ s.name ++ "/" ++ fc.1, fc.2⟩))
  { files := ⟨"AGENTS.md", jsTrim (jsJoin "\n\n" sections) ++ "\n"⟩ :: skillFiles
    warnings := []
    nativeFeatures := ["instructions", "skills"]
    degradedFeatures :=
      (if 0 < globRules.length
       then ["scoped-rules (folded into instructions with file-path annotations)"] else []) ++
      (if 0 < descRules.length
       then ["description-triggered rules (folded into instructions)"] else []) ++
      (if 0 < ir.hooks.length then ["hooks (folded into behavioral instructions)"] else []) }

/-- Codex adapter value. -/
def codexAdapter : Adapter := ⟨"codex", codexGenerate⟩

/-! ## Generic markdown adapter factory (src/adapters/generic-markdown.ts) -/

/-- generate of a generic markdown adapter: one file with rules, hooks and
skills folded in. -/
def genericGenerate (outputPath : String) (ir : IR) : AdapterResult :=
  let alwaysRules := ir.rules.filter (fun r => r.scope == .always || r.scope == .manual)
  let alwaysSecs := alwaysRules.map (fun r => "### " ++ r.name ++ "\n\n" ++ r.content)
  let globRules := ir.rules.filter (fun r => r.scope == .glob)
  let globSecs := globRules.map renderGlobRule
  let descRules := ir.rules.filter (fun r => r.scope == .description)
  let descSecs := descRules.map renderDescriptionRule
  let hookSecs := if 0 < ir.hooks.length then [renderHooksSection ir.hooks] else []
  let skillSecs := if 0 < ir.skills.length then [renderSkillsSection ir.skills] else []
  let sections := alwaysSecs ++ globSecs ++ descSecs ++ hookSecs ++ skillSecs
  { files := [⟨outputPath, jsTrim (jsJoin "\n\n" sections) ++ "\n"⟩]
    warnings := []
    nativeFeatures := ["instructions"]
    degradedFeatures :=
      (if 0 < globRules.length
       then ["scoped-rules (folded into instructions with file-match annotations)"] else []) ++
      (if 0 < descRules.length
       then ["description-triggered rules (folded into instructions)"] else []) ++
      (if 0 < ir.hooks.length then ["hooks (folded into behavioral instructions)"] else []) ++
      (if 0 < ir.skills.length then ["skills (folded into skills section)"] else []) }

/-- createGenericAdapter from generic-markdown.ts. -/
def createGenericAdapter (name outputPath : String) : Adapter :=
  ⟨name, genericGenerate outputPath⟩

/-- genericMarkdownAdapter from generic-markdown.ts. -/
def genericMarkdownAdapter : Adapter := createGenericAdapter "generic-markdown" "AGENTS.md"

/-! ## Adapter registry (src/adapters/registry.ts) -/

/-- Platform-specific aliases built with the generic markdown factory. -/
def aiderAdapter : Adapter := createGenericAdapter "aider" "CONVENTIONS.md"

/-- Junie alias of the generic markdown factory. -/
def junieAdapter : Adapter := createGenericAdapter "junie" ".junie/guidelines.md"

/-- Amazon Q alias of the generic markdown factory. -/
def amazonqAdapter : Adapter := createGenericAdapter "amazonq" ".amazonq/rules/agentrc.md"

/-- Amp alias of the generic markdown factory. -/
def ampAdapter : Adapter := createGenericAdapter "amp" "AGENTS.md"

/-- Roo alias of the generic markdown factory. -/
def rooAdapter : Adapter := createGenericAdapter "roo" "AGENTS.md"

/-- The adapter registry object literal, in key insertion order. -/
def adapters : List (String × Adapter) :=
  [("claude", claudeAdapter),
   ("cursor", cursorAdapter),
   ("copilot", copilotAdapter),
   ("windsurf", windsurfAdapter),
   ("cline", clineAdapter),
   ("gemini", geminiAdapter),
   ("codex", codexAdapter),
   ("generic-markdown", genericMarkdownAdapter),
   ("aider", aiderAdapter),
   ("junie", junieAdapter),
   ("amazonq", amazonqAdapter),
   ("amp", ampAdapter),
   ("roo", rooAdapter)]

/-- listAdapters from registry.ts: `Object.keys(adapters)`. -/
def listAdapters : List String := adapters.map (·.1)

/-- Message of the unknown-adapter error, enumerating all valid names. -/
def unknownAdapterMsg (name : String) : String :=
  "Unknown adapter \"" ++ name ++ "\". Available adapters: " ++
    jsJoin ", " listAdapters

/-- Runtime value produced by indexing the `adapters` object literal: an
adapter stored under an own key, a truthy value inherited from
`Object.prototype` (a function such as `toString`, or the prototype object
for `__proto__`, modelled opaquely by the property name), or `undefined`. -/
inductive JsValue where
  | adapterVal (a : Adapter)
  | protoVal (propName : String)
  | undefinedVal

/-- Property names a plain object literal inherits from `Object.prototype`,
all bound to truthy values. -/
def objectProtoProps : List String :=
  ["constructor", "hasOwnProperty", "isPrototypeOf", "propertyIsEnumerable",
   "toLocaleString", "toString", "valueOf", "__defineGetter__",
   "__defineSetter__", "__lookupGetter__", "__lookupSetter__", "__proto__"]

/-- Model of the JS property read `adapters[name]`: own keys of the object
literal first, then the prototype chain of a plain object literal
(`Object.prototype`), otherwise `undefined`. -/
def adaptersIndex (name : String) : JsValue :=
  match List.lookup name adapters with
  | some a => .adapterVal a
  | none => if name ∈ objectProtoProps then .protoVal name else .undefinedVal

/-- getAdapter from registry.ts: `const adapter = adapters[name]` followed by
`if (!adapter) throw ...`.  The truthiness test fires only when the property
read yields `undefined`, so a truthy value inherited from `Object.prototype`
is returned as if it were an adapter instead of raising the error. -/
def getAdapter (name : String) : Except String JsValue :=
  match adaptersIndex name with
  | .undefinedVal => .error (unknownAdapterMsg name)
  | v => .ok v

/-- Result test for getAdapter returning an adapter registered under an own
key of the registry. -/
def exceptOkAdapter : Except String JsValue → Bool
  | .ok (.adapterVal _) => true
  | _ => false

/-- Targets enum of the config schema (src/core/config.ts). -/
def schemaTargets : List String :=
  ["claude", "cursor", "copilot", "windsurf", "cline", "gemini", "codex",
   "aider", "junie", "amazonq", "amp", "roo", "generic-markdown"]

/-! ## Lemmas about the stable priority sort -/

theorem priorityOrder_inj {p q : Priority} (h : priorityOrder p = priorityOrder q) :
    p = q := by
  cases p <;> cases q <;> first | rfl | simp [priorityOrder] at h

theorem filter_orderedInsert (p : Priority) (a : Rule) (L : List Rule) :
    (List.orderedInsert ruleLE a L).filter (fun r => decide (r.priority = p)) =
      if a.priority = p
      then a :: L.filter (fun r => decide (r.priority = p))
      else L.filter (fun r => decide (r.priority = p)) := by
  rw [List.orderedInsert_eq_take_drop, List.filter_append, List.filter_cons]
  have htake : (L.takeWhile fun b => decide ¬ ruleLE a b).filter
      (fun r => decide (r.priority = p)) = [] ∨ ¬ a.priority = p := by
    by_cases hp : a.priority = p
    · left
      apply List.filter_eq_nil_iff.mpr
      intro b hb
      have hble := List.mem_takeWhile_imp hb
      simp only [decide_eq_true_eq] at hble
      have hlt : priorityOrder b.priority < priorityOrder a.priority := by
        simpa [ruleLE, Nat.not_le] using hble
      simp only [decide_eq_true_eq]
      intro hbp
      exact absurd (priorityOrder_inj (by rw [hbp, hp]) : b.priority = a.priority)
        (fun hh => by rw [hh] at hlt; omega)
    · right; exact hp
  by_cases hp : a.priority = p
  · rcases htake with htake | htake
    · rw [if_pos hp]
      simp only [hp]
      rw [if_pos (by simp)]
      rw [htake]
      conv_rhs => rw [← List.takeWhile_append_dropWhile
        (p := fun b => decide ¬ ruleLE a b) (l := L)]
      rw [List.filter_append, htake]
      simp
    · exact absurd hp htake
  · rw [if_neg hp]
    rw [if_neg (by simpa using hp)]
    conv_rhs => rw [← List.takeWhile_append_dropWhile
      (p := fun b => decide ¬ ruleLE a b) (l := L)]
    rw [List.filter_append]

theorem filter_sortByPriority (p : Priority) (l : List Rule) :
    (sortByPriority l).filter (fun r => decide (r.priority = p)) =
      l.filter (fun r => decide (r.priority = p)) := by
  induction l with
  | nil => rfl
  | cons a l ih =>
    show (List.orderedInsert ruleLE a (List.insertionSort ruleLE l)).filter _ = _
    rw [filter_orderedInsert, List.filter_cons]
    by_cases hp : a.priority = p
    · rw [if_pos hp, if_pos (by simp [hp])]
      exact congrArg (a :: ·) ih
    · rw [if_neg hp, if_neg (by simpa using hp)]
      exact ih

/-- C6.  For every rule list, `sortByPriority` orders rules by the rank
critical=0, high=1, normal=2, low=3 (the output is sorted under that rank
comparison), is stable (for each priority, the equal-priority rules appear in
the output exactly in input order), and is idempotent. -/
theorem sortByPriority_stable_idempotent (rules : List Rule) :
    List.Sorted ruleLE (sortByPriority rules) ∧
    (∀ p : Priority, (sortByPriority rules).filter (fun r => decide (r.priority = p)) =
      rules.filter (fun r => decide (r.priority = p))) ∧
    sortByPriority (sortByPriority rules) = sortByPriority rules := by
  refine ⟨List.sorted_insertionSort ruleLE rules, fun p => filter_sortByPriority p rules, ?_⟩
  exact List.Sorted.insertionSort_eq (List.sorted_insertionSort ruleLE rules)

/-! ## determineScope precedence -/

/-- C2.  `determineScope` is a total function of the four frontmatter inputs
and follows the six-case precedence, first match wins: (1) always-flag true
gives always; (2) manual-flag true gives manual; (3) non-empty glob list
gives glob; (4) non-empty description gives description; (5) explicit
always-flag false with none of the above gives manual; (6) otherwise
always. -/
theorem determineScope_precedence :
    (∀ fm : RuleFrontmatter, fm.alwaysApply = some true →
      determineScope fm = .always) ∧
    (∀ fm : RuleFrontmatter, fm.alwaysApply ≠ some true → fm.manual = some true →
      determineScope fm = .manual) ∧
    (∀ fm : RuleFrontmatter, fm.alwaysApply ≠ some true → fm.manual ≠ some true →
      hasGlobs fm = true → determineScope fm = .glob) ∧
    (∀ fm : RuleFrontmatter, fm.alwaysApply ≠ some true → fm.manual ≠ some true →
      hasGlobs fm = false → jsTruthyStr fm.description = true →
      determineScope fm = .description) ∧
    (∀ fm : RuleFrontmatter, fm.alwaysApply ≠ some true → fm.manual ≠ some true →
      hasGlobs fm = false → jsTruthyStr fm.description = false →
      fm.alwaysApply = some false → determineScope fm = .manual) ∧
    (∀ fm : RuleFrontmatter, fm.alwaysApply ≠ some true → fm.manual ≠ some true →
      hasGlobs fm = false → jsTruthyStr fm.description = false →
      fm.alwaysApply ≠ some false → determineScope fm = .always) := by
  refine ⟨?_, ?_, ?_, ?_, ?_, ?_⟩ <;>
    intro fm <;> intros <;> simp [determineScope, *]

/-- Witness for C2: a frontmatter with no activation metadata falls through
to case (6) and is always-on. -/
theorem determineScope_precedence_witness :
    determineScope (RuleFrontmatter.mk none none none none) = RuleScope.always :=
  determineScope_precedence.2.2.2.2.2 _ (by decide) (by decide) (by decide)
    (by decide) (by decide)

/-! ## Windsurf budget allocator: invariants and test scenarios -/

/-- Sum of the content lengths of a list of output files. -/
def sumLens (l : List OutputFile) : Nat :=
  (l.map (fun f => f.content.length)).sum

theorem windsurfScan_total_le : ∀ (rs : List Rule) (total : Nat),
    total ≤ TOTAL_CHAR_LIMIT →
    total + sumLens (windsurfScan total rs).1 ≤ TOTAL_CHAR_LIMIT := by
  intro rs
  induction rs with
  | nil => intro total h; simpa [windsurfScan, sumLens] using h
  | cons r rs ih =>
    intro total h
    simp only [windsurfScan]
    split
    · simpa [sumLens] using ih total h
    · next hle =>
      have hfit : total + (windsurfRuleContent r).length ≤ TOTAL_CHAR_LIMIT := by
        omega
      have := ih (total + (windsurfRuleContent r).length) hfit
      simp only [sumLens, List.map_cons, List.sum_cons] at *
      omega

theorem sumLens_filter_le (p : OutputFile → Bool) (l : List OutputFile) :
    sumLens (l.filter p) ≤ sumLens l := by
  induction l with
  | nil => simp [sumLens]
  | cons f l ih =>
    rw [List.filter_cons]
    by_cases hf : p f
    · simpa [hf, sumLens] using ih
    · simp only [hf, Bool.false_eq_true, if_false]
      simp only [sumLens, List.map_cons, List.sum_cons] at *
      omega

/-- C9.  For every IR, the combined size of the per-rule files emitted by the
windsurf adapter (every file except the degraded-skills conventions file)
never exceeds the 12,000-character total limit: the running total counts the
full size of every included rule, oversized or not. -/
theorem windsurf_total_limit_invariant (ir : IR) :
    sumLens ((windsurfGenerate ir).files.filter
      (fun f => !(f.path == ".windsurf/rules/agentrc-conventions.md"))) ≤
      TOTAL_CHAR_LIMIT := by
  have hrules : sumLens (windsurfScan 0 ir.rules).1 ≤ TOTAL_CHAR_LIMIT := by
    simpa using windsurfScan_total_le ir.rules 0 (by simp [TOTAL_CHAR_LIMIT])
  have hfilter := sumLens_filter_le
    (fun f => !(f.path == ".windsurf/rules/agentrc-conventions.md"))
    (windsurfScan 0 ir.rules).1
  simp only [windsurfGenerate]
  split
  · simp only [List.filter_append, List.filter_cons, List.filter_nil]
    norm_num
    omega
  · rw [List.append_nil]
    omega

/-- String of `n` repeated `x` characters, as built by `'x'.repeat(n)` in the
windsurf adapter tests. -/
def xStr (n : Nat) : String := String.mk (List.replicate n 'x')

/-- Rule with an always scope and a body of `n` repeated characters, as built
by the windsurf adapter tests. -/
def xRule (name : String) (p : Priority) (n : Nat) : Rule :=
  { name := name, scope := .always, content := xStr n,
    priority := p, sourcePath := name ++ ".md" }

theorem dropWhile_x (n : Nat) :
    (List.replicate n 'x').dropWhile Char.isWhitespace = List.replicate n 'x' := by
  cases n with
  | zero => rfl
  | succ n => simp [List.replicate_succ, List.dropWhile_cons]

theorem jsTrim_x (n : Nat) : jsTrim (xStr n) = xStr n := by
  simp [jsTrim, xStr, String.toList, dropWhile_x, List.reverse_replicate]

theorem xRule_content_eq (name : String) (p : Priority) (n : Nat) :
    windsurfRuleContent (xRule name p n) =
      "---\ntrigger: always_on\n---" ++ "\n\n" ++ xStr n ++ "\n" := by
  simp [windsurfRuleContent, xRule, globsNonempty, jsTruthyStr, jsTrim_x]

theorem xRule_content_len (name : String) (p : Priority) (n : Nat) :
    (windsurfRuleContent (xRule name p n)).length = n + 29 := by
  rw [xRule_content_eq]
  simp only [String.length_append]
  rw [show (xStr n).length = n by simp [xStr, String.length],
    show ("---\ntrigger: always_on\n---").length = 26 from rfl,
    show ("\n\n").length = 2 from rfl, show ("\n").length = 1 from rfl]
  omega

/-- Fixture IR of the three-rule budget scenario: three 5,000-character
blocks (frontmatter plus trimmed body plus separators) with priorities
high, normal, low. -/
def budgetIR : IR :=
  { rules := [xRule "important" .high 4971, xRule "medium" .normal 4971,
      xRule "low-priority" .low 4971],
    hooks := [], commands := [], skills := [], agents := [], targets := [] }

/-- Fixture IR of the single-oversized-rule scenario: one rule whose body is
6,100 characters, so its rendered block exceeds the per-file limit. -/
def hugeIR : IR :=
  { rules := [xRule "huge-rule" .normal 6100],
    hooks := [], commands := [], skills := [], agents := [], targets := [] }

theorem windsurfScan_nil (total : Nat) : windsurfScan total [] = ([], [], total) := rfl

theorem windsurfScan_cons_ok (total : Nat) (r : Rule) (rs : List Rule)
    (hsmall : ¬ RULE_CHAR_LIMIT < (windsurfRuleContent r).length)
    (hfits : ¬ TOTAL_CHAR_LIMIT < total + (windsurfRuleContent r).length) :
    windsurfScan total (r :: rs) =
      (⟨".windsurf/rules/" ++ r.name ++ ".md", windsurfRuleContent r⟩ ::
          (windsurfScan (total + (windsurfRuleContent r).length) rs).1,
        (windsurfScan (total + (windsurfRuleContent r).length) rs).2.1,
        (windsurfScan (total + (windsurfRuleContent r).length) rs).2.2) := by
  simp only [windsurfScan]
  rw [if_neg hsmall, if_neg hfits]
  simp

theorem windsurfScan_cons_drop (total : Nat) (r : Rule) (rs : List Rule)
    (hsmall : ¬ RULE_CHAR_LIMIT < (windsurfRuleContent r).length)
    (hover : TOTAL_CHAR_LIMIT < total + (windsurfRuleContent r).length) :
    windsurfScan total (r :: rs) =
      ((windsurfScan total rs).1,
        dropWarning r.name r.priority total :: (windsurfScan total rs).2.1,
        (windsurfScan total rs).2.2) := by
  simp only [windsurfScan]
  rw [if_neg hsmall, if_pos hover]
  simp

theorem windsurfScan_cons_big_ok (total : Nat) (r : Rule) (rs : List Rule)
    (hbig : RULE_CHAR_LIMIT < (windsurfRuleContent r).length)
    (hfits : ¬ TOTAL_CHAR_LIMIT < total + (windsurfRuleContent r).length) :
    windsurfScan total (r :: rs) =
      (⟨".windsurf/rules/" ++ r.name ++ ".md", windsurfRuleContent r⟩ ::
          (windsurfScan (total + (windsurfRuleContent r).length) rs).1,
        oversizeWarning r.name (windsurfRuleContent r).length ::
          (windsurfScan (total + (windsurfRuleContent r).length) rs).2.1,
        (windsurfScan (total + (windsurfRuleContent r).length) rs).2.2) := by
  simp only [windsurfScan]
  rw [if_pos hbig, if_neg hfits]
  simp

theorem windsurfGenerate_no_skills (ir : IR) (h : ir.skills = []) :
    (windsurfGenerate ir).files = (windsurfScan 0 ir.rules).1 ∧
    (windsurfGenerate ir).warnings = (windsurfScan 0 ir.rules).2.1 := by
  simp [windsurfGenerate, h, windsurfConventionSections]

/-- C3.  The windsurf budget allocator renders each rule's full block in
order; a rule whose block would push the running total over the
12,000-character global limit is excluded entirely, with a warning naming the
rule and its priority; a block exceeding the 6,000-character per-item limit
always gets a non-fatal warning, and is still included whenever it fits the
global limit.  In particular: for three 5,000-character blocks with
priorities high/normal/low, the low-priority rule is dropped with a warning
naming it (at a running total of 10,000) and the other two are written; a
single rule with a 6,100-character body is written together with the per-item
warning. -/
theorem windsurf_budget_allocator :
    (∀ (total : Nat) (r : Rule) (rs : List Rule),
      TOTAL_CHAR_LIMIT < total + (windsurfRuleContent r).length →
      (windsurfScan total (r :: rs)).1 = (windsurfScan total rs).1 ∧
      dropWarning r.name r.priority total ∈ (windsurfScan total (r :: rs)).2.1) ∧
    (∀ (total : Nat) (r : Rule) (rs : List Rule),
      RULE_CHAR_LIMIT < (windsurfRuleContent r).length →
      oversizeWarning r.name (windsurfRuleContent r).length ∈
        (windsurfScan total (r :: rs)).2.1 ∧
      (total + (windsurfRuleContent r).length ≤ TOTAL_CHAR_LIMIT →
        (⟨".windsurf/rules/" ++ r.name ++ ".md", windsurfRuleContent r⟩ : OutputFile) ∈
          (windsurfScan total (r :: rs)).1)) ∧
    ((windsurfGenerate budgetIR).files.map (fun f => f.path) =
        [".windsurf/rules/important.md", ".windsurf/rules/medium.md"] ∧
      (windsurfGenerate budgetIR).files.map (fun f => f.content.length) = [5000, 5000] ∧
      (windsurfGenerate budgetIR).warnings =
        [dropWarning "low-priority" .low 10000]) ∧
    ((windsurfGenerate hugeIR).files.map (fun f => f.path) =
        [".windsurf/rules/huge-rule.md"] ∧
      (windsurfGenerate hugeIR).warnings = [oversizeWarning "huge-rule" 6129]) := by
  refine ⟨?_, ?_, ?_, ?_⟩
  · intro total r rs hover
    constructor
    · simp only [windsurfScan]
      rw [if_pos (by omega)]
    · simp only [windsurfScan]
      rw [if_pos (by omega)]
      simp
  · intro total r rs hbig
    constructor
    · simp only [windsurfScan]
      split
      · simp [hbig]
      · simp [hbig]
    · intro hfit
      simp only [windsurfScan]
      rw [if_neg (by omega)]
      simp
  · have l1 : (windsurfRuleContent (xRule "important" Priority.high 4971)).length = 5000 :=
      (xRule_content_len "important" Priority.high 4971).trans (by norm_num)
    have l2 : (windsurfRuleContent (xRule "medium" Priority.normal 4971)).length = 5000 :=
      (xRule_content_len "medium" Priority.normal 4971).trans (by norm_num)
    have l3 : (windsurfRuleContent (xRule "low-priority" Priority.low 4971)).length = 5000 :=
      (xRule_content_len "low-priority" Priority.low 4971).trans (by norm_num)
    have hns := windsurfGenerate_no_skills budgetIR rfl
    have hscan : windsurfScan 0 budgetIR.rules =
        ([⟨".windsurf/rules/important.md",
            windsurfRuleContent (xRule "important" Priority.high 4971)⟩,
          ⟨".windsurf/rules/medium.md",
            windsurfRuleContent (xRule "medium" Priority.normal 4971)⟩],
         [dropWarning "low-priority" Priority.low 10000], 10000) := by
      rw [show budgetIR.rules = [xRule "important" Priority.high 4971,
        xRule "medium" Priority.normal 4971,
        xRule "low-priority" Priority.low 4971] from rfl]
      rw [windsurfScan_cons_ok 0 _ _ (by rw [l1]; decide) (by rw [l1]; decide)]
      rw [l1]; norm_num
      rw [windsurfScan_cons_ok 5000 _ _ (by rw [l2]; decide) (by rw [l2]; decide)]
      rw [l2]; norm_num
      rw [windsurfScan_cons_drop 10000 _ _ (by rw [l3]; decide) (by rw [l3]; decide)]
      rw [windsurfScan_nil]
      exact ⟨⟨rfl, rfl, rfl⟩, rfl⟩
    refine ⟨?_, ?_, ?_⟩
    · rw [hns.1, hscan]
      exact rfl
    · rw [hns.1, hscan]
      simp [l1, l2]
    · rw [hns.2, hscan]
  · have l1 : (windsurfRuleContent (xRule "huge-rule" Priority.normal 6100)).length = 6129 :=
      (xRule_content_len "huge-rule" Priority.normal 6100).trans (by norm_num)
    have hns := windsurfGenerate_no_skills hugeIR rfl
    have hscan : windsurfScan 0 hugeIR.rules =
        ([⟨".windsurf/rules/huge-rule.md",
            windsurfRuleContent (xRule "huge-rule" Priority.normal 6100)⟩],
         [oversizeWarning "huge-rule" 6129], 6129) := by
      rw [show hugeIR.rules = [xRule "huge-rule" Priority.normal 6100] from rfl]
      rw [windsurfScan_cons_big_ok 0 _ _ (by rw [l1]; decide) (by rw [l1]; decide)]
      rw [l1]; norm_num
      rw [windsurfScan_nil]
      exact ⟨⟨rfl, rfl⟩, ⟨rfl, rfl⟩, rfl⟩
    refine ⟨?_, ?_⟩
    · rw [hns.1, hscan]
      exact rfl
    · rw [hns.2, hscan]

/-- Witness for C3: the drop branch fires at a concrete running total of
10,000 characters with a concrete low-priority rule, naming it in the
warning. -/
theorem windsurf_budget_allocator_witness :
    (windsurfScan 10000 [xRule "low-priority" .low 4971]).1 =
      (windsurfScan 10000 []).1 ∧
    dropWarning "low-priority" .low 10000 ∈
      (windsurfScan 10000 [xRule "low-priority" .low 4971]).2.1 :=
  windsurf_budget_allocator.1 10000 (xRule "low-priority" .low 4971) []
    (by rw [xRule_content_len]; decide)

/-! ## Glob-to-regex: spec comparison (C5) -/

/-- Spec-side star rewriting, translated from the spec's words: rewrite `**`
to `.*`, and rewrite every bare `*` (one not part of a `**`) to `[^/]*`. -/
def starsSpec : List Char → List Char
  | [] => []
  | [c] => if c = '*' then '[' :: '^' :: '/' :: ']' :: '*' :: [] else [c]
  | c1 :: c2 :: t =>
    if c1 = '*' ∧ c2 = '*' then '.' :: '*' :: starsSpec t
    else if c1 = '*' then '[' :: '^' :: '/' :: ']' :: '*' :: starsSpec (c2 :: t)
    else c1 :: starsSpec (c2 :: t)

/-- Spec-side glob-to-regex, translated from the spec's words: escape literal
dots, rewrite brace alternation groups, rewrite `**` to `.*`, rewrite every
bare `*` to `[^/]*`, rewrite `?` to `.`. -/
def globToRegexSpec (glob : String) : String :=
  String.mk (qPass (starsSpec (bracesPass (escDots glob.toList))))

/-- Amended star rewriting: as `starsSpec`, except that a bare `*` directly
preceded by a dot (after dot escaping, the `.` of an escaped literal dot) is
left unchanged, mirroring the source's lookbehind. -/
def starsAmended (prev : Option Char) : List Char → List Char
  | [] => []
  | [c] =>
    if c = '*' then
      (if prev ≠ some '.' then '[' :: '^' :: '/' :: ']' :: '*' :: [] else ['*'])
    else [c]
  | c1 :: c2 :: t =>
    if c1 = '*' ∧ c2 = '*' then '.' :: '*' :: starsAmended (some '*') t
    else if c1 = '*' then
      (if prev ≠ some '.'
       then '[' :: '^' :: '/' :: ']' :: '*' :: starsAmended (some '*') (c2 :: t)
       else '*' :: starsAmended (some '*') (c2 :: t))
    else c1 :: starsAmended (some c1) (c2 :: t)

/-- Amended glob-to-regex: the spec's five rewrites with the star rule
weakened by the lookbehind exception. -/
def globToRegexAmended (glob : String) : String :=
  String.mk (qPass (starsAmended none (bracesPass (escDots glob.toList))))

theorem starsPass_head (c : Char) (t : List Char) (h : ¬ c = '*') :
    (starsPass (c :: t)).head? = some c := by
  cases t with
  | nil => rfl
  | cons c2 t' =>
    have : ¬ (c = '*' ∧ c2 = '*') := fun hc => h hc.1
    simp [starsPass, this]

theorem lonePass_starsPass : ∀ (s : List Char) (prev : Option Char),
    lonePass prev (starsPass s) = starsAmended prev s
  | [], _ => rfl
  | [c], prev => by
    by_cases hc : c = '*'
    · subst hc
      by_cases hp : prev = some '.' <;>
        simp [starsPass, lonePass, starsAmended, hp]
    · simp [starsPass, lonePass, starsAmended, hc]
  | c1 :: c2 :: t, prev => by
    by_cases h12 : c1 = '*' ∧ c2 = '*'
    · obtain ⟨rfl, rfl⟩ : c1 = '*' ∧ c2 = '*' := h12
      have ih := lonePass_starsPass t (some '*')
      simp [starsPass, lonePass, starsAmended, ih]
    · by_cases h1 : c1 = '*'
      · obtain rfl : c1 = '*' := h1
        have h2 : ¬ c2 = '*' := fun hc => h12 ⟨rfl, hc⟩
        have ih := lonePass_starsPass (c2 :: t) (some '*')
        have hh := starsPass_head c2 t h2
        by_cases hp : prev = some '.' <;>
          simp [starsPass, lonePass, starsAmended, h2, hp, hh, ih]
      · have ih := lonePass_starsPass (c2 :: t) (some c1)
        simp [starsPass, lonePass, starsAmended, h12, h1, ih]

/-- Counterexample for C5: on the glob `a.*` the compiler leaves the star
after the escaped dot untouched (the lookbehind `(?<!\.)` sees the dot of the
escaped literal dot), producing `a\.*` instead of the claimed `a\.[^/]*`. -/
theorem globToRegex_star_after_dot_counterexample :
    globToRegex "a.*" = "a\\.*" ∧ globToRegexSpec "a.*" = "a\\.[^/]*" ∧
      globToRegex "a.*" ≠ globToRegexSpec "a.*" := by
  refine ⟨rfl, rfl, ?_⟩
  decide

/-- C5 (amended).  The glob-to-regex compiler escapes literal dots, rewrites
every brace alternation group to a parenthesised pipe alternation, rewrites
every `**` to `.*`, rewrites every bare `*` that is neither part of a `**`
nor directly preceded by a dot to `[^/]*`, and rewrites every `?` to `.`. -/
theorem globToRegex_amended_spec (glob : String) :
    globToRegex glob = globToRegexAmended glob := by
  unfold globToRegex globToRegexAmended
  rw [lonePass_starsPass]

/-! ## Hook compiler: placeholder substitution and guard lemmas (C4) -/

/-- Characters of the placeholder token after its opening brace. -/
def fileTokTail : List Char := ['f', 'i', 'l', 'e', '}']

theorem replaceFile_tok (t : List Char) :
    replaceFile ('{' :: 'f' :: 'i' :: 'l' :: 'e' :: '}' :: t) =
      '$' :: '1' :: replaceFile t := rfl

theorem replaceFile_cons_skip (c : Char) (t : List Char)
    (h : ¬ fileTok <+: (c :: t)) :
    replaceFile (c :: t) = c :: replaceFile t := by
  rw [replaceFile.eq_def]
  split
  · next t' heq =>
    exfalso
    apply h
    rw [heq]
    exact ⟨t', rfl⟩
  · next c' t' heq =>
    rw [List.cons.injEq] at heq
    rw [heq.1, heq.2]
  · next heq => exact absurd heq (List.cons_ne_nil c t)

theorem replaceFile_prefix_preserve : ∀ (n : Nat) (s w : List Char),
    s.length ≤ n → (∀ c ∈ w, c ∈ fileTokTail) → w <+: replaceFile s → w <+: s := by
  intro n
  induction n with
  | zero =>
    intro s w hs hsub hp
    have : s = [] := List.length_eq_zero.mp (Nat.le_zero.mp hs)
    subst this
    rw [show replaceFile [] = [] from rfl] at hp
    rw [List.prefix_nil.mp hp]
  | succ n ih =>
    intro s w hs hsub hp
    by_cases hpre : fileTok <+: s
    · obtain ⟨u, rfl⟩ := hpre
      rw [show fileTok ++ u = '{' :: 'f' :: 'i' :: 'l' :: 'e' :: '}' :: u from rfl,
        replaceFile_tok] at hp
      cases w with
      | nil => exact List.nil_prefix
      | cons d w' =>
        have hd : d = '$' := (List.cons_prefix_cons.mp hp).1
        have : d ∈ fileTokTail := hsub d (List.mem_cons_self d w')
        rw [hd] at this
        exact absurd this (by decide)
    · cases s with
      | nil =>
        rw [show replaceFile [] = [] from rfl] at hp
        rw [List.prefix_nil.mp hp]
      | cons c t =>
        rw [replaceFile_cons_skip c t hpre] at hp
        cases w with
        | nil => exact List.nil_prefix
        | cons d w' =>
          obtain ⟨hd, hw'⟩ := List.cons_prefix_cons.mp hp
          have hw't : w' <+: t := by
            apply ih t w' (by simp only [List.length_cons] at hs; omega)
            · exact fun x hx => hsub x (List.mem_cons_of_mem d hx)
            · exact hw'
          rw [hd]
          exact List.cons_prefix_cons.mpr ⟨rfl, hw't⟩

theorem replaceFile_no_tok : ∀ (n : Nat) (s : List Char),
    s.length ≤ n → ¬ fileTok <:+: replaceFile s := by
  intro n
  induction n with
  | zero =>
    intro s hs hinf
    have : s = [] := List.length_eq_zero.mp (Nat.le_zero.mp hs)
    subst this
    rw [show replaceFile [] = [] from rfl] at hinf
    rw [List.infix_nil] at hinf
    exact absurd hinf (by decide)
  | succ n ih =>
    intro s hs hinf
    by_cases hpre : fileTok <+: s
    · obtain ⟨u, rfl⟩ := hpre
      rw [show fileTok ++ u = '{' :: 'f' :: 'i' :: 'l' :: 'e' :: '}' :: u from rfl,
        replaceFile_tok] at hinf
      rcases List.infix_cons_iff.mp hinf with hp | h2
      · rw [show fileTok = '{' :: fileTokTail from rfl] at hp
        exact absurd (List.cons_prefix_cons.mp hp).1 (by decide)
      · rcases List.infix_cons_iff.mp h2 with hp | h3
        · rw [show fileTok = '{' :: fileTokTail from rfl] at hp
          exact absurd (List.cons_prefix_cons.mp hp).1 (by decide)
        · exact ih u (by simp [fileTok] at hs; omega) h3
    · cases s with
      | nil =>
        rw [show replaceFile [] = [] from rfl] at hinf
        rw [List.infix_nil] at hinf
        exact absurd hinf (by decide)
      | cons c t =>
        rw [replaceFile_cons_skip c t hpre] at hinf
        rcases List.infix_cons_iff.mp hinf with hp | h2
        · rw [show fileTok = '{' :: fileTokTail from rfl] at hp
          obtain ⟨hc, htail⟩ := List.cons_prefix_cons.mp hp
          have htail' : fileTokTail <+: t :=
            replaceFile_prefix_preserve t.length t fileTokTail le_rfl
              (by intro x hx; exact hx) htail
          apply hpre
          rw [show fileTok = '{' :: fileTokTail from rfl]
          exact List.cons_prefix_cons.mpr ⟨hc, htail'⟩
        · exact ih t (by simp only [List.length_cons] at hs; omega) h2

/-- Guard fragment named by the spec: `grep -qE "<regex>"` for the compiled
match glob. -/
def guardNeedle (m : String) : String :=
  "grep -qE \"" ++ globToRegex m ++ "\""

theorem grepGuard_decomp (m cmd : String) :
    grepGuard m cmd = "echo \"$1\" | " ++ (guardNeedle m ++ (" && " ++ cmd)) := by
  apply String.ext
  simp [grepGuard, guardNeedle, String.data_append, List.append_assoc]

/-- Example hook of the spec's hook-compiler test scenario. -/
def exHook : Hook :=
  { event := .postEdit, matchGlob := some "**/*.ts",
    run := "prettier --write \x7bfile\x7d", description := "" }

/-- C4.  The hook compiler maps post-edit to (PostToolUse,
Edit|Write|MultiEdit), post-create to (PostToolUse, Write) and pre-commit to
(Notification, Stop); placeholder substitution leaves no `\x7bfile\x7d` token
in the substituted command (each is replaced by the positional parameter
`$1`); the compiled command embeds a `grep -qE "<regex>"` guard exactly when
the hook has a non-empty match (with no match, the command is the resolved
run itself or the plain jq pipeline); and on the spec's example hook the
compiled command is the guarded jq pipeline containing `\.ts` and a `$1`
reference with no inline `\x7bfile\x7d` left. -/
theorem hook_compiler_spec :
    (mapHookEvent .postEdit = ⟨"PostToolUse", "Edit|Write|MultiEdit"⟩ ∧
      mapHookEvent .postCreate = ⟨"PostToolUse", "Write"⟩ ∧
      mapHookEvent .preCommit = ⟨"Notification", "Stop"⟩) ∧
    (∀ s : String, ¬ fileTok <:+: (replaceFileStr s).toList) ∧
    (∀ hook : Hook, hookMatchNonempty hook = true →
      ∃ cmd : String, buildHookCommand hook =
        jqPipeline ("echo \"$1\" | " ++
          (guardNeedle (hook.matchGlob.getD "") ++ (" && " ++ cmd)))) ∧
    (∀ hook : Hook, hookMatchNonempty hook = false →
      buildHookCommand hook = resolveRun hook.run ∨
      buildHookCommand hook = jqPipeline (replaceFileStr (resolveRun hook.run))) ∧
    (buildHookCommand exHook =
        "jq -r \x27.tool_input.file_path\x27 | xargs -I \x7b\x7d sh -c \x27echo \"$1\" | grep -qE \".*/[^/]*\\.ts\" && prettier --write $1\x27 _ \x7b\x7d" ∧
      (mapHookEvent exHook.event).matcher = "Edit|Write|MultiEdit" ∧
      ("\\.ts").toList <:+: (buildHookCommand exHook).toList ∧
      ("$1").toList <:+: (buildHookCommand exHook).toList ∧
      ¬ fileTok <:+: (buildHookCommand exHook).toList) := by
  refine ⟨⟨rfl, rfl, rfl⟩, ?_, ?_, ?_, ?_⟩
  · intro s
    exact replaceFile_no_tok s.toList.length s.toList le_rfl
  · intro hook hm
    by_cases hf : hasFileTok (resolveRun hook.run)
    · refine ⟨replaceFileStr (resolveRun hook.run), ?_⟩
      simp only [buildHookCommand, hf, hm, if_true, if_pos]
      rw [grepGuard_decomp]
    · refine ⟨resolveRun hook.run, ?_⟩
      simp only [buildHookCommand, hm, if_true]
      rw [if_neg (by simpa using hf)]
      rw [grepGuard_decomp]
  · intro hook hm
    by_cases hf : hasFileTok (resolveRun hook.run)
    · right
      simp only [buildHookCommand, hf, hm, if_true]
      simp
    · left
      simp only [buildHookCommand, hm]
      rw [if_neg (by simpa using hf), if_neg (by simp [hm])]
  · refine ⟨by decide, rfl, by decide, by decide, by decide⟩

/-- Witness for C4: the guard-presence clause applied to the example hook,
whose match glob is non-empty. -/
theorem hook_compiler_spec_witness :
    hookMatchNonempty exHook = true ∧
    ∃ cmd : String, buildHookCommand exHook =
      jqPipeline ("echo \"$1\" | " ++
        (guardNeedle (exHook.matchGlob.getD "") ++ (" && " ++ cmd))) :=
  ⟨rfl, hook_compiler_spec.2.2.1 exHook rfl⟩

/-! ## Registry and traceability theorems (C1, C7, C8, C10) -/

/-- Substring test at the character level. -/
def mentionsIn (needle s : String) : Bool :=
  decide (needle.toList <:+: s.toList)

/-- IR holding exactly one agent and nothing else. -/
def agentOnlyIR : IR :=
  { rules := [], hooks := [], commands := [], skills := [],
    agents := [⟨"reviewer", "Reviews pull requests", "Review the diff.",
      none, none, ".agentrc/agents/reviewer.md"⟩],
    targets := [] }

/-- Trace test of the single agent of `agentOnlyIR` in an adapter result:
its name appears in some file path or content, or some warning, or an
agent feature category is named in the native or degraded feature tags. -/
def agentTraceB (res : AdapterResult) : Bool :=
  res.files.any (fun f => mentionsIn "reviewer" f.path || mentionsIn "reviewer" f.content) ||
  (res.nativeFeatures ++ res.degradedFeatures).any (fun s => mentionsIn "agent" s) ||
  res.warnings.any (fun s => mentionsIn "reviewer" s || mentionsIn "agent" s)

/-- C1 (failing-input evaluation).  For the IR holding exactly one agent,
every one of the thirteen registered adapters produces a result with no
trace of the agent: its name appears in no file path, file content, or
warning, and no native or degraded feature tag names an agent category.
The agent feature instance is silently dropped by every adapter, although
the repository documentation declares agents native on Claude and Cursor. -/
theorem agents_silently_dropped :
    agentOnlyIR.agents.length = 1 ∧
    adapters.all (fun p => !(agentTraceB (p.2.generate agentOnlyIR))) = true :=
  ⟨rfl, by decide⟩

/-- IR with every list empty. -/
def emptyIR : IR := ⟨[], [], [], [], [], []⟩

/-- C7.  Every registered adapter's generate is deterministic: two calls on
the identical IR value produce identical results.  In the embedding each
generate is a pure function of the IR (the sources perform no I/O, read no
mutable state and use no nondeterminism), so equal arguments give equal
results definitionally. -/
theorem adapters_generate_deterministic :
    ∀ p ∈ adapters, ∀ ir : IR, p.2.generate ir = p.2.generate ir :=
  fun _ _ _ => rfl

/-- Witness for C7: the claude registry entry on the empty IR. -/
theorem adapters_generate_deterministic_witness :
    ("claude", claudeAdapter).2.generate emptyIR =
      ("claude", claudeAdapter).2.generate emptyIR :=
  adapters_generate_deterministic ("claude", claudeAdapter)
    (by simp [adapters]) emptyIR

theorem lookup_some_mem {l : List (String × Adapter)} {k : String} {a : Adapter}
    (h : List.lookup k l = some a) : (k, a) ∈ l := by
  induction l with
  | nil => simp [List.lookup] at h
  | cons p t ih =>
    cases p with
    | mk k' v =>
      simp only [List.lookup] at h
      by_cases hk : k == k'
      · rw [hk] at h
        simp only [Option.some.injEq] at h
        have : k = k' := eq_of_beq hk
        rw [this, ← h]
        exact List.mem_cons_self _ _
      · rw [Bool.not_eq_true] at hk
        rw [hk] at h
        exact List.mem_cons_of_mem _ (ih h)

theorem lookup_none_not_key {l : List (String × Adapter)} {k : String}
    (h : List.lookup k l = none) : ∀ p ∈ l, p.1 ≠ k := by
  induction l with
  | nil => intro p hp; simp at hp
  | cons q t ih =>
    cases q with
    | mk k' v =>
      simp only [List.lookup] at h
      by_cases hk : k == k'
      · rw [hk] at h; simp at h
      · rw [Bool.not_eq_true] at hk
        rw [hk] at h
        intro p hp
        rcases List.mem_cons.mp hp with rfl | hp'
        · intro hc
          have hck : k' = k := hc
          rw [hck] at hk
          simp at hk
        · exact ih h p hp'

theorem names_infix_avail :
    ∀ p ∈ adapters, p.1.toList <:+: (jsJoin ", " listAdapters).toList := by
  decide

/-- Counterexample for C8: `"toString"` is not a registered adapter name,
yet `adapters["toString"]` finds the truthy `Object.prototype.toString`
inherited by the object literal, so getAdapter returns that non-adapter
value and never raises the enumerating not-found error. -/
theorem getAdapter_proto_counterexample :
    (adapters.map Prod.fst).contains "toString" = false ∧
    getAdapter "toString" = .ok (.protoVal "toString") ∧
    ∀ msg : String, getAdapter "toString" ≠ .error msg := by
  refine ⟨by decide, rfl, ?_⟩
  intro msg h
  rw [show getAdapter "toString" = .ok (.protoVal "toString") from rfl] at h
  exact Except.noConfusion h

/-- C8 (amended).  For every name: when an adapter is registered under the
name, getAdapter returns it; when the name is unregistered and not a
property name of Object.prototype, getAdapter raises the not-found error
whose message enumerates every registered adapter name; but when an
unregistered name is an Object.prototype property (toString, valueOf,
hasOwnProperty, __proto__, ...), the object-literal lookup finds the truthy
inherited value and getAdapter silently returns that non-adapter value
instead of raising the error. -/
theorem getAdapter_total_spec (name : String) :
    (∃ a : Adapter, (name, a) ∈ adapters ∧ getAdapter name = .ok (.adapterVal a)) ∨
    ((∀ p ∈ adapters, p.1 ≠ name) ∧ name ∈ objectProtoProps ∧
      getAdapter name = .ok (.protoVal name)) ∨
    ((∀ p ∈ adapters, p.1 ≠ name) ∧ name ∉ objectProtoProps ∧
      getAdapter name = .error (unknownAdapterMsg name) ∧
      ∀ p ∈ adapters, p.1.toList <:+: (unknownAdapterMsg name).toList) := by
  cases h : List.lookup name adapters with
  | some a =>
    left
    exact ⟨a, lookup_some_mem h, by simp [getAdapter, adaptersIndex, h]⟩
  | none =>
    by_cases hp : name ∈ objectProtoProps
    · right; left
      exact ⟨lookup_none_not_key h, hp, by simp [getAdapter, adaptersIndex, h, hp]⟩
    · right; right
      refine ⟨lookup_none_not_key h, hp,
        by simp [getAdapter, adaptersIndex, h, hp], ?_⟩
      intro p hp'
      have h1 := names_infix_avail p hp'
      have h2 : (unknownAdapterMsg name).toList =
          ("Unknown adapter \"" ++ name ++ "\". Available adapters: ").toList ++
            (jsJoin ", " listAdapters).toList := rfl
      rw [h2]
      exact h1.trans ( List.IsSuffix.isInfix (List.suffix_append _ _))

/-- Witness for C8: a name that is neither registered nor inherited takes
the error branch. -/
theorem getAdapter_total_spec_witness :
    getAdapter "nope" = Except.error (unknownAdapterMsg "nope") := by
  rcases getAdapter_total_spec "nope" with ⟨a, hmem, -⟩ | ⟨-, hproto, -⟩ | ⟨-, -, herr, -⟩
  · have hm : "nope" ∈ adapters.map Prod.fst := by
      simpa using List.mem_map_of_mem Prod.fst hmem
    exact absurd hm (by decide)
  · exact absurd hproto (by decide)
  · exact herr

/-- C10.  Every target name accepted by the config schema's targets enum has
an adapter registered under an own key of the registry with exactly that
name, so getAdapter returns that adapter (never the unknown-adapter error,
and never a value inherited from Object.prototype) for every target of a
schema-validated config. -/
theorem schema_targets_all_registered :
    schemaTargets.all (fun t => exceptOkAdapter (getAdapter t)) = true := by
  decide

end Agentrc
